import Mathlib

/-!
Verification of the websocket chat hub (main.go): the message data model,
the Redis-backed persistence adapter (storeMessage, markMessageSeen,
getRecentMessages, clearChannelHistory), the broadcast arm of the hub event
loop (Hub.run), broadcastUserCount, sendRecentMessages and one iteration of
Client.readPump, embedded as pure functions over explicit state.
-/

namespace WsChat

/-- Go `time.Time` at the resolution the hub observes: Unix seconds plus
sub-second nanoseconds.  `t.Unix()` in the source returns the seconds. -/
structure Time where
  sec : Int
  nsec : Nat
  deriving DecidableEq

/-- `ReplyInfo` from main.go: denormalized snapshot of a replied-to message. -/
structure ReplyInfo where
  messageId : String
  username : String
  message : String
  type : String
  deriving DecidableEq

/-- `Message` from main.go.  `numerologyData` is an opaque payload; it is kept
as an optional string since the hub never inspects it. -/
structure Message where
  username : String
  message : String
  timestamp : Time
  channel : String
  type : String
  fileUrl : String
  fileName : String
  fileSize : Int
  seenBy : List String
  replyTo : Option ReplyInfo
  numerologyData : Option String
  deriving DecidableEq

/-- A `Message` with every field zeroed, as Go's zero value. -/
def blankMessage : Message :=
  { username := "", message := "", timestamp := ⟨0, 0⟩, channel := "", type := ""
  , fileUrl := "", fileName := "", fileSize := 0, seenBy := [], replyTo := none
  , numerologyData := none }

/-- One entry of a channel's Redis list.  Serializing a `Message` with
`json.Marshal` is modelled as the injection `good` (it cannot fail on the
modelled fields); bytes that do not unmarshal as a `Message` (foreign writers,
corruption) are `bad`.  Unmarshalling a marshalled message returns it
unchanged. -/
inductive StoredEntry
  | good (m : Message)
  | bad (raw : String)
  deriving DecidableEq

/-- `json.Unmarshal` of a stored entry into a `Message`. -/
def decodeEntry : StoredEntry → Option Message
  | .good m => some m
  | .bad _ => none

/-- The contents of the Redis store: each key holds a list, head = most
recently pushed. -/
def RedisDB : Type := String → List StoredEntry

/-- Writing one key of the store. -/
def dbSet (d : RedisDB) (key : String) (l : List StoredEntry) : RedisDB :=
  fun k => if k = key then l else d k

/-- A store with every list empty. -/
def emptyDB : RedisDB := fun _ => []

/-- The key the source builds for a channel: `websocket:messages:` followed by
the channel name. -/
def msgKey (channel : String) : String := "websocket:messages:" ++ channel

/-- Redis `LRANGE key 0 stop` (the source always passes start 0): the
inclusive prefix up to index `stop`; a negative `stop` counts from the end of
the list (`-1` is the last element).  `LTRIM key 0 stop` keeps the same
range. -/
def lrange0 (l : List StoredEntry) (stop : Int) : List StoredEntry :=
  l.take (((if stop < 0 then (l.length : Int) + stop else stop) + 1).toNat)

/-- `Hub.storeMessage` on a live store: marshal, `LPUSH` to the channel's key,
`LTRIM 0 99` (keep the 100 most recent), refresh the 24h TTL (expiry never
changes list contents within a run and is not modelled). -/
def storeMessageD (d : RedisDB) (msg : Message) : RedisDB :=
  dbSet d (msgKey msg.channel)
    (lrange0 (StoredEntry.good msg :: d (msgKey msg.channel)) 99)

/-- `Hub.storeMessage`: a no-op when the store handle is nil. -/
def storeMessage (db : Option RedisDB) (msg : Message) : Option RedisDB :=
  db.map (fun d => storeMessageD d msg)

/-- The loop inside `Hub.markMessageSeen` over the `LRANGE 0 49` window: find
the first entry that unmarshals and whose timestamp matches at second
resolution; if the username is not already in its seenBy, append it and `LSET`
the entry in place; in either case stop at the first match.  Entries that do
not unmarshal are skipped. -/
def markSeenScan (tsSec : Int) (username : String) : List StoredEntry → List StoredEntry
  | [] => []
  | e :: es =>
    match decodeEntry e with
    | some msg =>
      if msg.timestamp.sec = tsSec then
        if username ∈ msg.seenBy then e :: es
        else StoredEntry.good { msg with seenBy := msg.seenBy ++ [username] } :: es
      else e :: markSeenScan tsSec username es
    | none => e :: markSeenScan tsSec username es

/-- `Hub.markMessageSeen` on one channel's list: scan the first-50 window,
leave everything below it untouched (`LSET` writes in place; window indices
coincide with indices of the full list). -/
def markSeenList (tsSec : Int) (username : String) (l : List StoredEntry) : List StoredEntry :=
  markSeenScan tsSec username (lrange0 l 49) ++ l.drop (lrange0 l 49).length

/-- `Hub.markMessageSeen`: a no-op when the store handle is nil. -/
def markMessageSeen (db : Option RedisDB) (channel : String) (ts : Time) (username : String) :
    Option RedisDB :=
  db.map (fun d => dbSet d (msgKey channel) (markSeenList ts.sec username (d (msgKey channel))))

/-- `Hub.getRecentMessages`: empty result and nil error when the store is nil;
otherwise `LRANGE 0 (limit-1)` (storage order, most recent first), then walk
the result from its end to its start keeping the entries that unmarshal —
oldest first.  The second component is the returned error, nil in the pure
model (a transport failure of LRANGE is outside it). -/
def getRecentMessages (db : Option RedisDB) (channel : String) (limit : Int) :
    List Message × Option String :=
  match db with
  | none => ([], none)
  | some d =>
    (((lrange0 (d (msgKey channel)) (limit - 1)).reverse).filterMap decodeEntry, none)

/-- `Hub.clearChannelHistory`: with a nil store it logs and returns a nil
error; otherwise `DEL` the channel's key.  The boolean is true when the
returned error is nil. -/
def clearChannelHistory (db : Option RedisDB) (channel : String) : Option RedisDB × Bool :=
  match db with
  | none => (none, true)
  | some d => (some (dbSet d (msgKey channel) []), true)

/-- A serialized frame as it travels on the broadcast channel and in
mailboxes: a marshalled `Message`, the compact seen-update map Hub.run
synthesizes, the user_count map broadcastUserCount synthesizes, or bytes that
do not unmarshal as a `Message`. -/
inductive WireFrame
  | msgFrame (m : Message)
  | seenAckFrame (channel : String) (timestamp : Time) (username : String)
  | userCountFrame (count : Nat) (timestamp : Time)
  | rawFrame (s : String)
  deriving DecidableEq

/-- `json.Unmarshal` of a frame into a `Message`, as the broadcast arm of
Hub.run performs.  The synthesized maps also unmarshal (Go ignores unknown
JSON fields and fills absent ones with zero values). -/
def decodeFrame : WireFrame → Option Message
  | .msgFrame m => some m
  | .seenAckFrame ch ts u =>
      some { blankMessage with username := u, timestamp := ts, channel := ch, type := "seen" }
  | .userCountFrame _ ts =>
      some { blankMessage with timestamp := ts, type := "user_count" }
  | .rawFrame _ => none

/-- Capacity of a connection's Send channel: `make(chan []byte, 256)`. -/
def sendCap : Nat := 256

/-- A connected client: id, current username, mailbox contents, and whether
the hub has closed its Send channel. -/
structure Client where
  id : String
  username : String
  send : List WireFrame
  closed : Bool
  deriving DecidableEq

/-- Non-blocking send with skip-on-full: the `select`/`default` pattern used
by the seen-update fan-out, broadcastUserCount and sendRecentMessages (the
default branch does nothing). -/
def enqueueSkip (c : Client) (f : WireFrame) : Client :=
  if c.send.length < sendCap then { c with send := c.send ++ [f] } else c

/-- Hub state: the client registry, the clients dropped so far (their Send
channel closed by the hub), and the optional store handle. -/
structure HubState where
  clients : List Client
  dropped : List Client
  db : Option RedisDB

/-- The broadcast fan-out of Hub.run: non-blocking send to every registered
client; a full mailbox makes the hub close that client's Send channel and
delete it from the registry in the same pass.  Returns the surviving clients
and the dropped ones. -/
def fanOutDrop (f : WireFrame) : List Client → List Client × List Client
  | [] => ([], [])
  | c :: cs =>
    if c.send.length < sendCap then
      ({ c with send := c.send ++ [f] } :: (fanOutDrop f cs).1, (fanOutDrop f cs).2)
    else
      ((fanOutDrop f cs).1, { c with closed := true } :: (fanOutDrop f cs).2)

/-- One pass of the `message := <-h.broadcast` arm of Hub.run: unmarshal; if
that succeeds and the message has type "seen", a positive Unix timestamp and a
non-empty username, update seenBy in the store and fan out a compact seen
update (skip-on-full) to every client, then continue; otherwise store the
message when its type is not "seen" (when unmarshalling failed nothing is
stored), and fan out the original frame with drop-on-full. -/
def hubBroadcast (s : HubState) (f : WireFrame) : HubState :=
  match decodeFrame f with
  | some msg =>
    if msg.type = "seen" ∧ 0 < msg.timestamp.sec ∧ msg.username ≠ "" then
      { s with
        db := markMessageSeen s.db msg.channel msg.timestamp msg.username
        clients := s.clients.map
          (fun c => enqueueSkip c (.seenAckFrame msg.channel msg.timestamp msg.username)) }
    else
      let db' := if msg.type ≠ "seen" then storeMessage s.db msg else s.db
      let r := fanOutDrop f s.clients
      { clients := r.1, dropped := s.dropped ++ r.2, db := db' }
  | none =>
    let r := fanOutDrop f s.clients
    { clients := r.1, dropped := s.dropped ++ r.2, db := s.db }

/-- `Hub.broadcastUserCount`: synthesize the user_count map carrying the
current registry size, and enqueue it non-blockingly on every client; a full
mailbox is skipped (its client is neither closed nor removed).  The store is
never touched. -/
def broadcastUserCount (s : HubState) (now : Time) : HubState :=
  { s with clients :=
      s.clients.map (fun c => enqueueSkip c (.userCountFrame s.clients.length now)) }

/-- The register arm of Hub.run followed by the scheduled
broadcastUserCount. -/
def hubRegister (s : HubState) (c : Client) (now : Time) : HubState :=
  broadcastUserCount { s with clients := s.clients ++ [c] } now

/-- The unregister arm of Hub.run: if the client is registered, remove it and
close its Send channel; then the scheduled broadcastUserCount (which runs in
either case). -/
def hubUnregister (s : HubState) (c : Client) (now : Time) : HubState :=
  broadcastUserCount
    (if c ∈ s.clients then
      { s with clients := s.clients.erase c
             , dropped := s.dropped ++ [{ c with closed := true }] }
     else s) now

/-- `Hub.sendRecentMessages`: fetch the channel's last 50 messages and enqueue
each, marshalled, on the requesting client only, skipping any that find its
buffer full. -/
def sendRecentMessages (db : Option RedisDB) (c : Client) (channel : String) : Client :=
  ((getRecentMessages db channel 50).1.map WireFrame.msgFrame).foldl enqueueSkip c

/-- The reserved body that requests a replay of recent messages. -/
def sentinelBody : String := "__GET_RECENT_MESSAGES__"

/-- An inbound websocket frame: bytes that unmarshal as a `Message`, or bytes
that do not (e.g. plain text). -/
inductive InboundFrame
  | decodable (m : Message)
  | undecodable (raw : String)
  deriving DecidableEq

/-- What one readPump iteration hands on: a replay request served to the
reading connection alone, or a message for the hub's broadcast channel. -/
inductive ReadAction
  | replay (channel : String)
  | broadcast (m : Message)
  deriving DecidableEq

/-- One iteration of `Client.readPump` on a received frame.  Decode failure
falls back to a plain-text message built from the connection's current
username and the raw bytes on the default channel; the pump continues — a
decode error never disconnects the sender.  Decode success adopts a non-empty
asserted username, server-stamps the timestamp except for "seen" messages and
the replay-request sentinel, defaults channel and type, and then either issues
a replay request (not a broadcast) or re-encodes the message for broadcast.
Returns the connection's updated username and the action taken. -/
def readPumpStep (username : String) (now : Time) : InboundFrame → String × ReadAction
  | .undecodable raw =>
    (username, .broadcast
      { blankMessage with
        username := username, message := raw, timestamp := now
        , channel := "genel", type := "text" })
  | .decodable m0 =>
    let uname := if m0.username ≠ "" then m0.username else username
    let m1 := if m0.type ≠ "seen" ∧ m0.message ≠ sentinelBody
              then { m0 with timestamp := now } else m0
    let m2 := if m1.channel = "" then { m1 with channel := "genel" } else m1
    let m3 := if m2.type = "" then { m2 with type := "text" } else m2
    if m3.message = sentinelBody then (uname, .replay m3.channel)
    else (uname, .broadcast m3)

/-- A frame arriving on one registered connection (looked up by id), followed
by the hub-side handling of the resulting action; the goroutine handoffs
(broadcast channel, sendRecentMessages) are serialized here. -/
def handleInbound (s : HubState) (cid : String) (now : Time) (f : InboundFrame) : HubState :=
  match s.clients.find? (fun c => c.id == cid) with
  | none => s
  | some c =>
    let r := readPumpStep c.username now f
    let withName : HubState :=
      { s with clients :=
          s.clients.map (fun x => if x.id = cid then { x with username := r.1 } else x) }
    match r.2 with
    | .replay ch =>
      { withName with clients := withName.clients.map (fun x => if x.id = cid then sendRecentMessages withName.db x ch else x) }
    | .broadcast m => hubBroadcast withName (.msgFrame m)

/-- Appending a sequence of messages through `Hub.storeMessage` on a live
store. -/
def appendAllD (d : RedisDB) (ms : List Message) : RedisDB :=
  ms.foldl storeMessageD d

/-- Appending a sequence of messages through `Hub.storeMessage`. -/
def appendAll (db : Option RedisDB) (ms : List Message) : Option RedisDB :=
  ms.foldl storeMessage db

/-- The message the read pump builds when raw bytes equal to the replay
sentinel fail to decode as JSON: a plain fallback text message whose body is
the sentinel string. -/
def sentinelFallback (u : String) (now : Time) : Message :=
  { blankMessage with username := u, message := sentinelBody, timestamp := now, channel := "genel", type := "text" }

/-- A registered client with an empty mailbox, for concrete instances. -/
def wClient : Client := { id := "w", username := "wendy", send := [], closed := false }

/-- A one-client hub without a store, for concrete instances. -/
def wState : HubState := { clients := [wClient], dropped := [], db := none }

/-- A second registered client with an empty mailbox, for concrete
instances. -/
def zClient : Client := { id := "z", username := "zoe", send := [], closed := false }

/-- A two-client hub without a store, for concrete instances. -/
def wState2 : HubState := { clients := [wClient, zClient], dropped := [], db := none }

/-- A well-formed seen acknowledgement, for concrete instances. -/
def wSeen : Message :=
  { blankMessage with username := "bob", type := "seen", timestamp := ⟨7, 0⟩, channel := "genel" }

/-- An ordinary text message, for concrete instances. -/
def wText : Message :=
  { blankMessage with username := "bob", message := "hi", timestamp := ⟨7, 0⟩, channel := "genel", type := "text" }

/-- A well-formed replay request, for concrete instances. -/
def wReq : Message :=
  { blankMessage with username := "bob", message := sentinelBody, channel := "genel", type := "request", timestamp := ⟨3, 0⟩ }

/-- A text message on the default channel, for concrete instances. -/
def c4msg : Message :=
  { blankMessage with username := "a", message := "first", timestamp := ⟨1, 0⟩, channel := "genel", type := "text" }

/-- A client whose 256-slot mailbox is completely full. -/
def fullClient : Client :=
  { id := "f", username := "u", send := List.replicate 256 (WireFrame.rawFrame "x")
  , closed := false }

/-- A hub whose only client has a full mailbox. -/
def fullState : HubState := { clients := [fullClient], dropped := [], db := none }

/-- A registered client with an empty mailbox, for the seen counterexample. -/
def cexClient : Client := { id := "a", username := "alice", send := [], closed := false }

/-- A message of kind "seen" whose username is empty: it decodes fine but
fails the guard `msg.Username != ""` inside Hub.run. -/
def cexSeenMsg : Message :=
  { blankMessage with type := "seen", timestamp := ⟨5, 0⟩, channel := "genel" }

end WsChat

namespace WsChat

/-! Helper lemmas about the fan-out, the bounded list operations and the
store. -/

theorem fanOutDrop_surv_mem (f : WireFrame) (cs : List Client) (c : Client)
    (hc : c ∈ cs) (h : c.send.length < sendCap) :
    { c with send := c.send ++ [f] } ∈ (fanOutDrop f cs).1 := by
  induction cs with
  | nil => cases hc
  | cons a as ih =>
    rcases List.mem_cons.mp hc with rfl | hc'
    · simp only [fanOutDrop, if_pos h]
      exact List.mem_cons_self _ _
    · by_cases ha : a.send.length < sendCap
      · simp only [fanOutDrop, if_pos ha]
        exact List.mem_cons_of_mem _ (ih hc')
      · simp only [fanOutDrop, if_neg ha]
        exact ih hc'

theorem fanOutDrop_drop_mem (f : WireFrame) (cs : List Client) (c : Client)
    (hc : c ∈ cs) (h : sendCap ≤ c.send.length) :
    { c with closed := true } ∈ (fanOutDrop f cs).2 := by
  induction cs with
  | nil => cases hc
  | cons a as ih =>
    rcases List.mem_cons.mp hc with rfl | hc'
    · simp only [fanOutDrop, if_neg (Nat.not_lt.mpr h)]
      exact List.mem_cons_self _ _
    · by_cases ha : a.send.length < sendCap
      · simp only [fanOutDrop, if_pos ha]
        exact ih hc'
      · simp only [fanOutDrop, if_neg ha]
        exact List.mem_cons_of_mem _ (ih hc')

theorem fanOutDrop_surv_src (f : WireFrame) (cs : List Client) (c' : Client)
    (h : c' ∈ (fanOutDrop f cs).1) :
    ∃ c ∈ cs, c.send.length < sendCap ∧ c' = { c with send := c.send ++ [f] } := by
  induction cs with
  | nil => simp [fanOutDrop] at h
  | cons a as ih =>
    by_cases ha : a.send.length < sendCap
    · simp only [fanOutDrop, if_pos ha] at h
      rcases List.mem_cons.mp h with rfl | h'
      · exact ⟨a, List.mem_cons_self _ _, ha, rfl⟩
      · obtain ⟨c, hcm, hlt, rfl⟩ := ih h'
        exact ⟨c, List.mem_cons_of_mem _ hcm, hlt, rfl⟩
    · simp only [fanOutDrop, if_neg ha] at h
      obtain ⟨c, hcm, hlt, rfl⟩ := ih h
      exact ⟨c, List.mem_cons_of_mem _ hcm, hlt, rfl⟩

theorem lrange0_nonneg (l : List StoredEntry) (stop : Int) (h : 0 ≤ stop) :
    lrange0 l stop = l.take (stop + 1).toNat := by
  simp [lrange0, Int.not_lt.mpr h]

theorem lrange0_subset (l : List StoredEntry) (stop : Int) : lrange0 l stop ⊆ l :=
  List.take_subset _ _

theorem lrange0_49 (l : List StoredEntry) : lrange0 l 49 = l.take 50 := by
  rw [lrange0_nonneg l 49 (by omega)]
  rfl

theorem take_absorb (a l : List StoredEntry) (n : Nat) :
    (a ++ l.take n).take n = (a ++ l).take n := by
  rw [List.take_append_eq_append_take, List.take_append_eq_append_take, List.take_take,
    Nat.min_eq_left (Nat.sub_le _ _)]

theorem storeMessageD_key (d : RedisDB) (m : Message) :
    storeMessageD d m (msgKey m.channel)
      = (StoredEntry.good m :: d (msgKey m.channel)).take 100 := by
  simp [storeMessageD, dbSet, lrange0]

theorem appendAllD_key (ms : List Message) (d : RedisDB) (ch : String)
    (hch : ∀ m ∈ ms, m.channel = ch) (hd : (d (msgKey ch)).length ≤ 100) :
    appendAllD d ms (msgKey ch) = (ms.reverse.map StoredEntry.good ++ d (msgKey ch)).take 100 := by
  induction ms generalizing d with
  | nil => simpa [appendAllD] using (List.take_of_length_le hd).symm
  | cons m rest ih =>
    have hm : m.channel = ch := hch m (List.mem_cons_self _ _)
    have hrest : ∀ x ∈ rest, x.channel = ch := fun x hx => hch x (List.mem_cons_of_mem _ hx)
    have hstep : storeMessageD d m (msgKey ch)
        = (StoredEntry.good m :: d (msgKey ch)).take 100 := by
      rw [← hm]; exact storeMessageD_key d m
    have hlen : (storeMessageD d m (msgKey ch)).length ≤ 100 := by
      rw [hstep]; simp [List.length_take]
    have hfold : appendAllD d (m :: rest) = appendAllD (storeMessageD d m) rest := rfl
    rw [hfold, ih (storeMessageD d m) hrest hlen, hstep]
    rw [take_absorb]
    congr 1
    simp [List.map_append]

theorem appendAll_some (d : RedisDB) (ms : List Message) :
    appendAll (some d) ms = some (appendAllD d ms) := by
  induction ms generalizing d with
  | nil => rfl
  | cons m rest ih =>
    have h1 : appendAll (some d) (m :: rest) = appendAll (some (storeMessageD d m)) rest := rfl
    rw [h1, ih]
    rfl

theorem filterMap_decode_good (l : List Message) :
    (l.map StoredEntry.good).filterMap decodeEntry = l := by
  rw [List.filterMap_map]
  have hcomp : decodeEntry ∘ StoredEntry.good = some := rfl
  rw [hcomp, List.filterMap_some]

theorem drop_min50 (l : List StoredEntry) : l.drop (min 50 l.length) = l.drop 50 := by
  rcases Nat.le_total l.length 50 with h | h
  · rw [Nat.min_eq_right h, List.drop_eq_nil_of_le h, List.drop_eq_nil_of_le le_rfl]
  · rw [Nat.min_eq_left h]

theorem markSeenScan_length (t : Int) (u : String) (l : List StoredEntry) :
    (markSeenScan t u l).length = l.length := by
  induction l with
  | nil => rfl
  | cons e es ih =>
    cases e with
    | good m =>
      by_cases hts : m.timestamp.sec = t
      · by_cases hu : u ∈ m.seenBy
        · simp [markSeenScan, decodeEntry, hts, hu]
        · simp [markSeenScan, decodeEntry, hts, hu]
      · simp [markSeenScan, decodeEntry, hts, ih]
    | bad s => simp [markSeenScan, decodeEntry, ih]

theorem markSeenScan_idem (t : Int) (u : String) (l : List StoredEntry) :
    markSeenScan t u (markSeenScan t u l) = markSeenScan t u l := by
  induction l with
  | nil => rfl
  | cons e es ih =>
    cases e with
    | good m =>
      by_cases hts : m.timestamp.sec = t
      · by_cases hu : u ∈ m.seenBy
        · simp [markSeenScan, decodeEntry, hts, hu]
        · simp [markSeenScan, decodeEntry, hts, hu]
      · simp [markSeenScan, decodeEntry, hts, ih]
    | bad s => simp [markSeenScan, decodeEntry, ih]

theorem markSeenScan_noMatch (t : Int) (u : String) (l : List StoredEntry)
    (h : ∀ e ∈ l, ∀ m : Message, decodeEntry e = some m → m.timestamp.sec ≠ t) :
    markSeenScan t u l = l := by
  induction l with
  | nil => rfl
  | cons e es ih =>
    have hes : ∀ e' ∈ es, ∀ m : Message, decodeEntry e' = some m → m.timestamp.sec ≠ t :=
      fun e' he' => h e' (List.mem_cons_of_mem _ he')
    cases e with
    | good m =>
      have hne : m.timestamp.sec ≠ t := h _ (List.mem_cons_self _ _) m rfl
      simp [markSeenScan, decodeEntry, hne, ih hes]
    | bad s => simp [markSeenScan, decodeEntry, ih hes]

theorem markSeenScan_count (t : Int) (u : String) (l : List StoredEntry)
    (hl : ∀ e ∈ l, ∀ m : Message, decodeEntry e = some m → m.seenBy.count u ≤ 1) :
    ∀ e' ∈ markSeenScan t u l, ∀ m' : Message, decodeEntry e' = some m' →
      m'.seenBy.count u ≤ 1 := by
  induction l with
  | nil => intro e' h'; cases h'
  | cons e es ih =>
    have hes : ∀ e' ∈ es, ∀ m : Message, decodeEntry e' = some m → m.seenBy.count u ≤ 1 :=
      fun e' he' => hl e' (List.mem_cons_of_mem _ he')
    cases e with
    | good m =>
      by_cases hts : m.timestamp.sec = t
      · by_cases hu : u ∈ m.seenBy
        · simpa [markSeenScan, decodeEntry, hts, hu] using hl
        · intro e' he' m' hd
          rw [show markSeenScan t u (StoredEntry.good m :: es)
              = StoredEntry.good { m with seenBy := m.seenBy ++ [u] } :: es from by
            simp [markSeenScan, decodeEntry, hts, hu]] at he'
          rcases List.mem_cons.mp he' with rfl | hmem
          · cases hd
            have h0 : m.seenBy.count u = 0 := by
              rw [List.count_eq_zero]
              simpa using hu
            simp [List.count_append, h0]
          · exact hes _ hmem m' hd
      · intro e' he' m' hd
        rw [show markSeenScan t u (StoredEntry.good m :: es)
            = StoredEntry.good m :: markSeenScan t u es from by
          simp [markSeenScan, decodeEntry, hts]] at he'
        rcases List.mem_cons.mp he' with rfl | hmem
        · exact hl _ (List.mem_cons_self _ _) m' hd
        · exact ih hes _ hmem m' hd
    | bad s =>
      intro e' he' m' hd
      rw [show markSeenScan t u (StoredEntry.bad s :: es)
          = StoredEntry.bad s :: markSeenScan t u es from by
        simp [markSeenScan, decodeEntry]] at he'
      rcases List.mem_cons.mp he' with rfl | hmem
      · cases hd
      · exact ih hes _ hmem m' hd

theorem markSeenScan_marks (t : Int) (u : String) (l : List StoredEntry)
    (h : ∃ e ∈ l, ∃ m : Message, decodeEntry e = some m ∧ m.timestamp.sec = t) :
    ∃ e' ∈ markSeenScan t u l, ∃ m' : Message,
      decodeEntry e' = some m' ∧ m'.timestamp.sec = t ∧ u ∈ m'.seenBy := by
  induction l with
  | nil => obtain ⟨e, he, _⟩ := h; cases he
  | cons e es ih =>
    cases e with
    | good m =>
      by_cases hts : m.timestamp.sec = t
      · by_cases hu : u ∈ m.seenBy
        · refine ⟨.good m, ?_, m, rfl, hts, hu⟩
          simp [markSeenScan, decodeEntry, hts, hu]
        · refine ⟨.good { m with seenBy := m.seenBy ++ [u] }, ?_, _, rfl, hts, ?_⟩
          · simp [markSeenScan, decodeEntry, hts, hu]
          · simp
      · have hscan : markSeenScan t u (StoredEntry.good m :: es)
            = StoredEntry.good m :: markSeenScan t u es := by
          simp [markSeenScan, decodeEntry, hts]
        obtain ⟨e, he, mm, hd, hsec⟩ := h
        rcases List.mem_cons.mp he with rfl | hmem
        · cases hd; exact absurd hsec hts
        · obtain ⟨e', he', m', h1, h2, h3⟩ := ih ⟨e, hmem, mm, hd, hsec⟩
          exact ⟨e', by rw [hscan]; exact List.mem_cons_of_mem _ he', m', h1, h2, h3⟩
    | bad s =>
      have hscan : markSeenScan t u (StoredEntry.bad s :: es)
          = StoredEntry.bad s :: markSeenScan t u es := by
        simp [markSeenScan, decodeEntry]
      obtain ⟨e, he, mm, hd, hsec⟩ := h
      rcases List.mem_cons.mp he with rfl | hmem
      · cases hd
      · obtain ⟨e', he', m', h1, h2, h3⟩ := ih ⟨e, hmem, mm, hd, hsec⟩
        exact ⟨e', by rw [hscan]; exact List.mem_cons_of_mem _ he', m', h1, h2, h3⟩

theorem markSeenList_eq (t : Int) (u : String) (l : List StoredEntry) :
    markSeenList t u l = markSeenScan t u (l.take 50) ++ l.drop 50 := by
  rw [markSeenList, lrange0_49]
  congr 1
  rw [List.length_take, drop_min50]

theorem markSeenList_take50 (t : Int) (u : String) (l : List StoredEntry) :
    (markSeenList t u l).take 50 = markSeenScan t u (l.take 50) := by
  rw [markSeenList_eq, List.take_append_eq_append_take]
  have hlen : (markSeenScan t u (l.take 50)).length = min 50 l.length := by
    rw [markSeenScan_length, List.length_take]
  rcases Nat.le_total l.length 50 with h | h
  · rw [List.take_of_length_le (by rw [hlen]; omega), List.drop_eq_nil_of_le h]
    simp
  · rw [List.take_of_length_le (by rw [hlen]; omega)]
    have h50 : 50 - (markSeenScan t u (l.take 50)).length = 0 := by rw [hlen]; omega
    simp [h50]

theorem markSeenList_drop50 (t : Int) (u : String) (l : List StoredEntry) :
    (markSeenList t u l).drop 50 = l.drop 50 := by
  rw [markSeenList_eq, List.drop_append_eq_append_drop]
  have hlen : (markSeenScan t u (l.take 50)).length = min 50 l.length := by
    rw [markSeenScan_length, List.length_take]
  rcases Nat.le_total l.length 50 with h | h
  · rw [List.drop_eq_nil_of_le (by rw [hlen]; omega), List.drop_eq_nil_of_le h]
    simp
  · rw [List.drop_eq_nil_of_le (by rw [hlen]; omega)]
    have h50 : 50 - (markSeenScan t u (l.take 50)).length = 0 := by rw [hlen]; omega
    simp [h50]

theorem markSeenList_idem (t : Int) (u : String) (l : List StoredEntry) :
    markSeenList t u (markSeenList t u l) = markSeenList t u l := by
  rw [markSeenList_eq t u (markSeenList t u l), markSeenList_take50, markSeenList_drop50,
    markSeenScan_idem, ← markSeenList_eq]

theorem markSeenList_noMatch (t : Int) (u : String) (l : List StoredEntry)
    (h : ∀ e ∈ l.take 50, ∀ m : Message, decodeEntry e = some m → m.timestamp.sec ≠ t) :
    markSeenList t u l = l := by
  rw [markSeenList_eq, markSeenScan_noMatch t u _ h, List.take_append_drop]

theorem dbSet_same (d : RedisDB) (k : String) (l : List StoredEntry) : dbSet d k l k = l :=
  if_pos rfl

theorem dbSet_self (d : RedisDB) (k : String) : dbSet d k (d k) = d := by
  funext k'
  by_cases h : k' = k <;> simp [dbSet, h]

theorem dbSet_dbSet (d : RedisDB) (k : String) (a b : List StoredEntry) :
    dbSet (dbSet d k a) k b = dbSet d k b := by
  funext k'
  by_cases h : k' = k <;> simp [dbSet, h]

theorem markMessageSeen_some (d : RedisDB) (ch : String) (ts : Time) (u : String) :
    markMessageSeen (some d) ch ts u
      = some (dbSet d (msgKey ch) (markSeenList ts.sec u (d (msgKey ch)))) := rfl

theorem hubBroadcast_not_seen (s : HubState) (m : Message) (hm : m.type ≠ "seen") :
    hubBroadcast s (.msgFrame m)
      = { clients := (fanOutDrop (.msgFrame m) s.clients).1
        , dropped := s.dropped ++ (fanOutDrop (.msgFrame m) s.clients).2
        , db := storeMessage s.db m } := by
  have hcond : ¬(m.type = "seen" ∧ 0 < m.timestamp.sec ∧ m.username ≠ "") := fun h => hm h.1
  simp only [hubBroadcast, decodeFrame, if_neg hcond, if_pos hm]

theorem readPumpStep_sentinel (u : String) (now : Time) (m : Message)
    (hm : m.message = sentinelBody) :
    readPumpStep u now (.decodable m)
      = (if m.username ≠ "" then m.username else u,
         .replay (if m.channel = "" then "genel" else m.channel)) := by
  have h1 : ¬(m.type ≠ "seen" ∧ m.message ≠ sentinelBody) := fun h => h.2 hm
  simp only [readPumpStep, if_neg h1]
  by_cases hch : m.channel = ""
  · by_cases hty : m.type = ""
    · simp [hch, hty, hm]
    · simp [hch, hty, hm]
  · by_cases hty : m.type = ""
    · simp [hch, hty, hm]
    · simp [hch, hty, hm]

end WsChat

namespace WsChat

/-! The claims. -/

/-- Claim C1 (corrected): when a frame accepted by the hub's broadcast
operation decodes with kind "seen" and additionally carries a positive Unix
timestamp and a non-empty username, the hub updates the target message's
seenBy through markMessageSeen, fans out the compact seen-ack (channel,
timestamp, username) to every registered connection whose mailbox has room
(full mailboxes are skipped, no connection is dropped), and stops: no
mailbox gains the original seen payload and nothing is stored. -/
theorem seen_update_amended (s : HubState) (m : Message)
    (h1 : m.type = "seen") (h2 : 0 < m.timestamp.sec) (h3 : m.username ≠ "") :
    (hubBroadcast s (.msgFrame m)).db
        = markMessageSeen s.db m.channel m.timestamp m.username
    ∧ (∀ c ∈ s.clients, c.send.length < sendCap →
        { c with send := c.send ++ [WireFrame.seenAckFrame m.channel m.timestamp m.username] }
          ∈ (hubBroadcast s (.msgFrame m)).clients)
    ∧ (∀ c ∈ s.clients, sendCap ≤ c.send.length → c ∈ (hubBroadcast s (.msgFrame m)).clients)
    ∧ (hubBroadcast s (.msgFrame m)).dropped = s.dropped
    ∧ (∀ c' ∈ (hubBroadcast s (.msgFrame m)).clients, WireFrame.msgFrame m ∈ c'.send →
        ∃ c ∈ s.clients, WireFrame.msgFrame m ∈ c.send) := by
  have hcond : m.type = "seen" ∧ 0 < m.timestamp.sec ∧ m.username ≠ "" := ⟨h1, h2, h3⟩
  simp only [hubBroadcast, decodeFrame, if_pos hcond]
  refine ⟨trivial, ?_, ?_, trivial, ?_⟩
  · intro c hc hlt
    exact List.mem_map.mpr ⟨c, hc, by simp [enqueueSkip, if_pos hlt]⟩
  · intro c hc hge
    exact List.mem_map.mpr ⟨c, hc, by simp [enqueueSkip, if_neg (Nat.not_lt.mpr hge)]⟩
  · intro c' hc' hmem
    obtain ⟨c, hc, rfl⟩ := List.mem_map.mp hc'
    refine ⟨c, hc, ?_⟩
    by_cases hlt : c.send.length < sendCap
    · simp only [enqueueSkip, if_pos hlt, List.mem_append, List.mem_singleton] at hmem
      rcases hmem with hmem | hmem
      · exact hmem
      · cases hmem
    · simpa [enqueueSkip, if_neg hlt] using hmem

/-- Claim C1, witness: a concrete hub with one empty-mailbox client and a
well-formed seen acknowledgement. -/
theorem seen_update_amended_witness :
    (hubBroadcast wState (.msgFrame wSeen)).db
        = markMessageSeen wState.db wSeen.channel wSeen.timestamp wSeen.username
    ∧ (∀ c ∈ wState.clients, c.send.length < sendCap →
        { c with send := c.send ++ [WireFrame.seenAckFrame wSeen.channel wSeen.timestamp wSeen.username] } ∈ (hubBroadcast wState (.msgFrame wSeen)).clients)
    ∧ (∀ c ∈ wState.clients, sendCap ≤ c.send.length → c ∈ (hubBroadcast wState (.msgFrame wSeen)).clients)
    ∧ (hubBroadcast wState (.msgFrame wSeen)).dropped = wState.dropped
    ∧ (∀ c' ∈ (hubBroadcast wState (.msgFrame wSeen)).clients,
        WireFrame.msgFrame wSeen ∈ c'.send →
        ∃ c ∈ wState.clients, WireFrame.msgFrame wSeen ∈ c.send) :=
  seen_update_amended wState wSeen rfl (by decide) (by decide)

/-- Claim C1, counterexample to the claim as stated: `cexSeenMsg` decodes
successfully with kind "seen" (its username is empty), yet the hub fans the
original seen payload out verbatim — it lands in the registered client's
mailbox, so the original seen payload IS broadcast. -/
theorem seen_update_counterexample :
    cexSeenMsg.type = "seen"
    ∧ (hubBroadcast { clients := [cexClient], dropped := [], db := none }
        (.msgFrame cexSeenMsg)).clients
      = [{ cexClient with send := [WireFrame.msgFrame cexSeenMsg] }] := by
  refine ⟨rfl, ?_⟩
  decide

/-- Claim C2 (confirmed): for a message of kind other than "seen", every
connection registered at the fan-out either receives the message in its
mailbox, or — exactly when its mailbox is full — its mailbox is closed and it
leaves the registry in the same pass; and every connection still registered
afterwards is one that received the message. -/
theorem broadcast_no_silent_drop (s : HubState) (m : Message) (hm : m.type ≠ "seen") :
    (∀ c ∈ s.clients,
      (c.send.length < sendCap ∧
        { c with send := c.send ++ [WireFrame.msgFrame m] }
          ∈ (hubBroadcast s (.msgFrame m)).clients)
      ∨ (sendCap ≤ c.send.length ∧
        { c with closed := true } ∈ (hubBroadcast s (.msgFrame m)).dropped))
    ∧ (∀ c' ∈ (hubBroadcast s (.msgFrame m)).clients,
        ∃ c ∈ s.clients, c.send.length < sendCap ∧
          c' = { c with send := c.send ++ [WireFrame.msgFrame m] }) := by
  rw [hubBroadcast_not_seen s m hm]
  constructor
  · intro c hc
    by_cases hlt : c.send.length < sendCap
    · exact Or.inl ⟨hlt, fanOutDrop_surv_mem _ _ _ hc hlt⟩
    · exact Or.inr ⟨Nat.not_lt.mp hlt,
        List.mem_append_right _ (fanOutDrop_drop_mem _ _ _ hc (Nat.not_lt.mp hlt))⟩
  · intro c' hc'
    exact fanOutDrop_surv_src _ _ _ hc'

/-- Claim C2, witness: a concrete hub with one empty-mailbox client and an
ordinary text message. -/
theorem broadcast_no_silent_drop_witness :
    (∀ c ∈ wState.clients,
      (c.send.length < sendCap ∧
        { c with send := c.send ++ [WireFrame.msgFrame wText] } ∈ (hubBroadcast wState (.msgFrame wText)).clients)
      ∨ (sendCap ≤ c.send.length ∧
        { c with closed := true } ∈ (hubBroadcast wState (.msgFrame wText)).dropped))
    ∧ (∀ c' ∈ (hubBroadcast wState (.msgFrame wText)).clients,
        ∃ c ∈ wState.clients, c.send.length < sendCap ∧
          c' = { c with send := c.send ++ [WireFrame.msgFrame wText] }) :=
  broadcast_no_silent_drop wState wText (by decide)

/-- Claim C3 (corrected): the presence-count broadcast synthesizes a message
carrying the current registry size and enqueues it non-blockingly on every
client, but on a full mailbox it merely skips — the connection stays
registered and its mailbox stays open, unlike the drop-on-full regular
fan-out; the presence count is never persisted (the store is untouched, also
when the broadcast is triggered by register or unregister). -/
theorem userCount_broadcast_amended (s : HubState) (now : Time) :
    (broadcastUserCount s now).db = s.db
    ∧ (broadcastUserCount s now).dropped = s.dropped
    ∧ (broadcastUserCount s now).clients.length = s.clients.length
    ∧ (∀ c ∈ s.clients, c.send.length < sendCap →
        { c with send := c.send ++ [WireFrame.userCountFrame s.clients.length now] }
          ∈ (broadcastUserCount s now).clients)
    ∧ (∀ c ∈ s.clients, sendCap ≤ c.send.length → c ∈ (broadcastUserCount s now).clients)
    ∧ (∀ c : Client, (hubRegister s c now).db = s.db)
    ∧ (∀ c : Client, (hubUnregister s c now).db = s.db) := by
  refine ⟨rfl, rfl, by simp [broadcastUserCount], ?_, ?_, fun c => rfl, ?_⟩
  · intro c hc hlt
    exact List.mem_map.mpr ⟨c, hc, by simp [enqueueSkip, if_pos hlt]⟩
  · intro c hc hge
    exact List.mem_map.mpr ⟨c, hc, by simp [enqueueSkip, if_neg (Nat.not_lt.mpr hge)]⟩
  · intro c
    unfold hubUnregister
    split <;> rfl

set_option maxRecDepth 4000 in
/-- Claim C3, counterexample to the claim as stated: a client whose 256-slot
mailbox is full is NOT removed from the registry by the presence-count
broadcast — it stays registered, nobody is dropped. -/
theorem userCount_drop_counterexample :
    sendCap ≤ fullClient.send.length
    ∧ (broadcastUserCount fullState ⟨10, 0⟩).clients = [fullClient]
    ∧ (broadcastUserCount fullState ⟨10, 0⟩).dropped = [] := by
  refine ⟨by decide, ?_, rfl⟩
  decide

/-- Claim C4 (corrected): starting from an empty channel, after appending the
messages `ms` in order, `recent(ch, N)` with `N ≥ 1` returns the last
min(N·100) of them in oldest-first order; and once a 101st message is
appended the oldest one no longer appears in any `recent` result, whatever
the limit.  (For N = 0 see the counterexample: LRANGE 0 -1 returns the whole
window.) -/
theorem recent_after_appends (ms : List Message) (ch : String) (N : Int)
    (hch : ∀ m ∈ ms, m.channel = ch) (hN : 1 ≤ N) :
    (getRecentMessages (appendAll (some emptyDB) ms) ch N).1
      = (ms.reverse.take (min N.toNat 100)).reverse
    ∧ (∀ m₀ tl, ms = m₀ :: tl → tl.length = 100 → m₀ ∉ tl →
        ∀ M : Int, m₀ ∉ (getRecentMessages (appendAll (some emptyDB) ms) ch M).1) := by
  have hstored : appendAllD emptyDB ms (msgKey ch)
      = (ms.reverse.map StoredEntry.good).take 100 := by
    have := appendAllD_key ms emptyDB ch hch (by simp [emptyDB])
    simpa [emptyDB] using this
  constructor
  · rw [appendAll_some]
    have h0 : (0 : Int) ≤ N - 1 := by omega
    have hto : (N - 1 + 1).toNat = N.toNat := by omega
    simp only [getRecentMessages, hstored, lrange0_nonneg _ _ h0, hto]
    rw [List.take_take, ← List.map_take, ← List.map_reverse, filterMap_decode_good]
  · rintro m₀ tl rfl hlen hnot M hmem
    rw [appendAll_some] at hmem
    simp only [getRecentMessages, hstored] at hmem
    have hrev : (m₀ :: tl).reverse.map StoredEntry.good
        = tl.reverse.map StoredEntry.good ++ [StoredEntry.good m₀] := by
      simp
    have hstored' : ((m₀ :: tl).reverse.map StoredEntry.good).take 100
        = tl.reverse.map StoredEntry.good := by
      rw [hrev]
      have h100 : (tl.reverse.map StoredEntry.good).length = 100 := by simp [hlen]
      rw [← h100, List.take_left]
    rw [hstored'] at hmem
    obtain ⟨e, he, hd⟩ := List.mem_filterMap.mp hmem
    have he' : e ∈ tl.reverse.map StoredEntry.good :=
      lrange0_subset _ _ (List.mem_reverse.mp he)
    obtain ⟨x, hx, rfl⟩ := List.mem_map.mp he'
    cases hd
    exact hnot (List.mem_reverse.mp hx)

/-- Claim C4, witness: one appended message, limit 1. -/
theorem recent_after_appends_witness :
    (getRecentMessages (appendAll (some emptyDB) [c4msg]) "genel" 1).1
      = ([c4msg].reverse.take (min (1 : Int).toNat 100)).reverse
    ∧ (∀ m₀ tl, [c4msg] = m₀ :: tl → tl.length = 100 → m₀ ∉ tl →
        ∀ M : Int, m₀ ∉ (getRecentMessages (appendAll (some emptyDB) [c4msg]) "genel" M).1) :=
  recent_after_appends [c4msg] "genel" 1 (by decide) (by decide)

/-- Claim C4, counterexample to the claim as stated: with limit 0 the source
issues `LRANGE key 0 -1`, which returns the whole stored window, not the
empty min(0,100)-element suffix the claim asks for. -/
theorem recent_limit_zero_counterexample :
    (getRecentMessages (appendAll (some emptyDB) [c4msg]) "genel" 0).1 = [c4msg]
    ∧ ([c4msg].reverse.take (min (0 : Int).toNat 100)).reverse = ([] : List Message)
    ∧ [c4msg] ≠ ([] : List Message) := by
  refine ⟨by decide, by decide, by decide⟩

/-- Claim C5 (confirmed): markMessageSeen only edits the channel's key and
only inside the 50-entry recent window; it is a no-op (returning the store
unchanged, no error) when no window entry matches the target timestamp at
second resolution; applying it twice with the same username equals applying
it once; when some window entry does match, afterwards some matching entry
acknowledges the username; and seenBy keeps any username at most once. -/
theorem markSeen_spec (d : RedisDB) (ch : String) (ts : Time) (u : String) :
    (∀ d' : RedisDB, markMessageSeen (some d) ch ts u = some d' →
      (d' (msgKey ch)).drop 50 = (d (msgKey ch)).drop 50
      ∧ ∀ k, k ≠ msgKey ch → d' k = d k)
    ∧ ((∀ e ∈ lrange0 (d (msgKey ch)) 49, ∀ m : Message,
          decodeEntry e = some m → m.timestamp.sec ≠ ts.sec) →
        markMessageSeen (some d) ch ts u = some d)
    ∧ markMessageSeen (markMessageSeen (some d) ch ts u) ch ts u
        = markMessageSeen (some d) ch ts u
    ∧ ((∃ e ∈ lrange0 (d (msgKey ch)) 49, ∃ m : Message,
          decodeEntry e = some m ∧ m.timestamp.sec = ts.sec) →
        ∀ d' : RedisDB, markMessageSeen (some d) ch ts u = some d' →
          ∃ e ∈ d' (msgKey ch), ∃ m : Message,
            decodeEntry e = some m ∧ m.timestamp.sec = ts.sec ∧ u ∈ m.seenBy)
    ∧ ((∀ e ∈ d (msgKey ch), ∀ m : Message, decodeEntry e = some m → m.seenBy.count u ≤ 1) →
        ∀ d' : RedisDB, markMessageSeen (some d) ch ts u = some d' →
          ∀ e ∈ d' (msgKey ch), ∀ m : Message, decodeEntry e = some m →
            m.seenBy.count u ≤ 1) := by
  refine ⟨?_, ?_, ?_, ?_, ?_⟩
  · intro d' h
    rw [markMessageSeen_some] at h
    injection h with h'
    subst h'
    refine ⟨?_, ?_⟩
    · rw [dbSet_same, markSeenList_drop50]
    · intro k hk
      simp [dbSet, hk]
  · intro h
    rw [markMessageSeen_some, markSeenList_noMatch, dbSet_self]
    rwa [lrange0_49] at h
  · rw [markMessageSeen_some, markMessageSeen_some, dbSet_same, markSeenList_idem, dbSet_dbSet]
  · intro hex d' h
    rw [markMessageSeen_some] at h
    injection h with h'
    subst h'
    rw [dbSet_same, markSeenList_eq]
    rw [lrange0_49] at hex
    obtain ⟨e', he', m', h1, h2, h3⟩ := markSeenScan_marks ts.sec u _ hex
    exact ⟨e', List.mem_append_left _ he', m', h1, h2, h3⟩
  · intro hall d' h
    rw [markMessageSeen_some] at h
    injection h with h'
    subst h'
    rw [dbSet_same, markSeenList_eq]
    intro e he m hd
    rcases List.mem_append.mp he with he | he
    · exact markSeenScan_count ts.sec u _
        (fun e' he' => hall e' (List.take_subset _ _ he')) e he m hd
    · exact hall e (List.drop_subset _ _ he) m hd

/-- Claim C6 (confirmed): a decoded inbound frame whose body is the replay
sentinel yields a replay action — not a broadcast — for the (defaulted)
channel; handling it leaves every other connection's state untouched, the
store unchanged (nothing persisted) and nobody dropped, and the channel's
backlog is enqueued on the requesting connection alone (sendRecentMessages
applied to the requester's record). -/
theorem replay_request_private (s : HubState) (cid u : String) (now : Time) (m : Message)
    (hm : m.message = sentinelBody) :
    ((readPumpStep u now (.decodable m)).2
        = ReadAction.replay (if m.channel = "" then "genel" else m.channel))
    ∧ (∀ x ∈ s.clients, x.id ≠ cid → x ∈ (handleInbound s cid now (.decodable m)).clients)
    ∧ (handleInbound s cid now (.decodable m)).db = s.db
    ∧ (handleInbound s cid now (.decodable m)).dropped = s.dropped
    ∧ (∀ c₀ : Client, s.clients.find? (fun c => c.id == cid) = some c₀ →
        sendRecentMessages s.db
            { c₀ with username := if m.username ≠ "" then m.username else c₀.username }
            (if m.channel = "" then "genel" else m.channel)
          ∈ (handleInbound s cid now (.decodable m)).clients) := by
  refine ⟨by rw [readPumpStep_sentinel u now m hm], ?_⟩
  cases hfind : s.clients.find? (fun c => c.id == cid) with
  | none =>
    simp only [handleInbound, hfind]
    exact ⟨fun x hx _ => hx, trivial, trivial, fun c₀ h => by cases h⟩
  | some c =>
    have hid : c.id = cid := by simpa using List.find?_some hfind
    have hmem : c ∈ s.clients := List.mem_of_find?_eq_some hfind
    simp only [handleInbound, hfind, readPumpStep_sentinel c.username now m hm]
    refine ⟨?_, trivial, trivial, ?_⟩
    · intro x hx hne
      have hx1 : x ∈ s.clients.map
          (fun y => if y.id = cid then { y with username := if m.username ≠ "" then m.username else c.username } else y) :=
        List.mem_map.mpr ⟨x, hx, by rw [if_neg hne]⟩
      exact List.mem_map.mpr ⟨x, hx1, by rw [if_neg hne]⟩
    · intro c₀ h
      injection h with h'
      subst h'
      have hx1 : ({ c with username := if m.username ≠ "" then m.username else c.username } : Client)
          ∈ s.clients.map
            (fun y => if y.id = cid then { y with username := if m.username ≠ "" then m.username else c.username } else y) :=
        List.mem_map.mpr ⟨c, hmem, by rw [if_pos hid]⟩
      exact List.mem_map.mpr ⟨_, hx1, by simp [hid]⟩

/-- Claim C6, witness: a concrete replay request arriving on a hub with one
client whose id differs from the requester's. -/
theorem replay_request_private_witness :
    ((readPumpStep "old" ⟨9, 0⟩ (.decodable wReq)).2
        = ReadAction.replay (if wReq.channel = "" then "genel" else wReq.channel))
    ∧ (∀ x ∈ wState2.clients, x.id ≠ "z" → x ∈ (handleInbound wState2 "z" ⟨9, 0⟩ (.decodable wReq)).clients)
    ∧ (handleInbound wState2 "z" ⟨9, 0⟩ (.decodable wReq)).db = wState2.db
    ∧ (handleInbound wState2 "z" ⟨9, 0⟩ (.decodable wReq)).dropped = wState2.dropped
    ∧ (∀ c₀ : Client, wState2.clients.find? (fun c => c.id == "z") = some c₀ →
        sendRecentMessages wState2.db { c₀ with username := if wReq.username ≠ "" then wReq.username else c₀.username } (if wReq.channel = "" then "genel" else wReq.channel)
          ∈ (handleInbound wState2 "z" ⟨9, 0⟩ (.decodable wReq)).clients) :=
  replay_request_private wState2 "z" "old" ⟨9, 0⟩ wReq rfl

/-- Claim C7 (confirmed): an inbound frame that fails to decode becomes a
broadcast of the fallback text message — the connection's current username,
the raw bytes as body, the default channel "genel", type "text" — with every
other field zero; in particular raw bytes "hello" from "alice" give exactly
that message; and the sender is not disconnected: a registered sender with
mailbox room is still registered after handling.  (The read pump has no
disconnect outcome for a decode failure at all: the step always returns an
action.) -/
theorem decode_failure_fallback (u raw : String) (now : Time) :
    readPumpStep u now (.undecodable raw)
      = (u, .broadcast
          { username := u, message := raw, timestamp := now, channel := "genel"
          , type := "text", fileUrl := "", fileName := "", fileSize := 0
          , seenBy := [], replyTo := none, numerologyData := none })
    ∧ (readPumpStep "alice" now (.undecodable "hello")).2
        = .broadcast
          { username := "alice", message := "hello", timestamp := now, channel := "genel"
          , type := "text", fileUrl := "", fileName := "", fileSize := 0
          , seenBy := [], replyTo := none, numerologyData := none }
    ∧ (∀ (s : HubState) (cid : String) (c₀ : Client),
        s.clients.find? (fun c => c.id == cid) = some c₀ → c₀.send.length < sendCap →
        ∃ c' ∈ (handleInbound s cid now (.undecodable raw)).clients, c'.id = cid) := by
  refine ⟨rfl, rfl, ?_⟩
  intro s cid c₀ hfind hlt
  have hid : c₀.id = cid := by simpa using List.find?_some hfind
  have hmem : c₀ ∈ s.clients := List.mem_of_find?_eq_some hfind
  simp only [handleInbound, hfind, readPumpStep]
  have hm : ({ blankMessage with username := c₀.username, message := raw, timestamp := now, channel := "genel", type := "text" } : Message).type ≠ "seen" := by simp
  rw [hubBroadcast_not_seen _ _ hm]
  have hkeep : c₀ ∈ s.clients.map
      (fun y => if y.id = cid then { y with username := c₀.username } else y) :=
    List.mem_map.mpr ⟨c₀, hmem, by rw [if_pos hid]⟩
  exact ⟨_, fanOutDrop_surv_mem _ _ _ hkeep hlt, hid⟩

/-- Claim C8 (confirmed): with a nil store handle every persistence operation
degrades silently: storeMessage and markMessageSeen are no-ops, recent
returns an empty list with a nil error, and clearChannelHistory still reports
success. -/
theorem nilStore_degrades :
    (∀ m, storeMessage none m = none)
    ∧ (∀ ch ts u, markMessageSeen none ch ts u = none)
    ∧ (∀ ch lim, getRecentMessages none ch lim = ([], none))
    ∧ (∀ ch, clearChannelHistory none ch = (none, true)) :=
  ⟨fun _ => rfl, fun _ _ _ => rfl, fun _ _ => rfl, fun _ => rfl⟩

/-- Claim C9 (confirmed): raw bytes equal to the replay sentinel that fail to
decode as JSON take the fallback path: they become a plain text message whose
body is the sentinel, the action is a broadcast and never a replay, and the
hub then persists that fallback message through storeMessage and fans it out
to every surviving connection like an ordinary message. -/
theorem sentinel_requires_decode (s : HubState) (cid u : String) (now : Time) :
    ((sentinelFallback u now).message = sentinelBody ∧ (sentinelFallback u now).type = "text")
    ∧ (readPumpStep u now (.undecodable sentinelBody)).2 = .broadcast (sentinelFallback u now)
    ∧ (∀ ch, (readPumpStep u now (.undecodable sentinelBody)).2 ≠ ReadAction.replay ch)
    ∧ (∀ c₀ : Client, s.clients.find? (fun c => c.id == cid) = some c₀ →
        (handleInbound s cid now (.undecodable sentinelBody)).db
          = storeMessage s.db (sentinelFallback c₀.username now)
        ∧ (∀ c' ∈ (handleInbound s cid now (.undecodable sentinelBody)).clients,
            WireFrame.msgFrame (sentinelFallback c₀.username now) ∈ c'.send)) := by
  refine ⟨⟨rfl, rfl⟩, rfl, ?_, ?_⟩
  · intro ch h
    cases h
  intro c₀ hfind
  simp only [handleInbound, hfind, readPumpStep]
  have hm : (sentinelFallback c₀.username now).type ≠ "seen" := by simp [sentinelFallback]
  rw [show ({ blankMessage with username := c₀.username, message := sentinelBody, timestamp := now, channel := "genel", type := "text" } : Message) = sentinelFallback c₀.username now from rfl]
  rw [hubBroadcast_not_seen _ _ hm]
  refine ⟨rfl, ?_⟩
  intro c' hc'
  obtain ⟨c, _, _, rfl⟩ := fanOutDrop_surv_src _ _ _ hc'
  simp

/-- Claim C10 (confirmed): on a live store, recent reports no error; its
result is exactly the window's decodable entries, reversed to oldest-first;
every returned message comes from a stored entry that decodes to it; and the
result can be strictly shorter than min(limit, stored length) — witnessed by
a store holding one good and one undecodable entry. -/
theorem recent_skips_undecodable (d : RedisDB) (ch : String) (limit : Int) :
    (getRecentMessages (some d) ch limit).2 = none
    ∧ (getRecentMessages (some d) ch limit).1
        = ((lrange0 (d (msgKey ch)) (limit - 1)).filterMap decodeEntry).reverse
    ∧ (∀ m ∈ (getRecentMessages (some d) ch limit).1,
        ∃ e ∈ d (msgKey ch), decodeEntry e = some m)
    ∧ (∃ d' : RedisDB, ∃ ch' : String, ∃ lim' : Int,
        ((getRecentMessages (some d') ch' lim').1).length
          < min lim'.toNat (d' (msgKey ch')).length) := by
  refine ⟨rfl, ?_, ?_, ?_⟩
  · simp only [getRecentMessages]
    rw [List.filterMap_reverse]
  · intro m hm
    simp only [getRecentMessages] at hm
    obtain ⟨e, he, hd⟩ := List.mem_filterMap.mp hm
    exact ⟨e, lrange0_subset _ _ (List.mem_reverse.mp he), hd⟩
  · refine ⟨dbSet emptyDB (msgKey "c") [StoredEntry.good blankMessage, StoredEntry.bad "junk"], "c", 2, ?_⟩
    decide

end WsChat
